import Mathlib

/-!
Verification development for the Crab-Cage key/value server.

The Rust sources are shallowly embedded: the sled-backed ordered byte store
becomes an association list from physical-key strings to values, each command
handler of `src/types/*.rs`, `src/expire.rs`, `src/engine/mod.rs`,
`src/txn/*.rs`, `src/server.rs` and `src/persistence.rs` becomes a Lean
function on that store, and the theorems below settle the specification's
claims about them.

Modelling conventions, fixed once here:
* All `KvEngine` operations of the repository route through the single sled
  tree opened by `open_tree("")` (`src/engine/kv.rs`); the embedding models
  exactly that tree as `Store`.  sled trees are disjoint keyspaces, so
  `drop_tree("hash:<K>")` and friends (`src/expire.rs`, `remove_key`) cannot
  remove any key of this tree; they are therefore no-ops of the model.
* Machine integers are `Nat`/`Int` with explicit `% 2^w` where the Rust code
  can wrap; `i64` values are `Int`s constrained to `[-2^63, 2^63)`.
* Byte strings that the code only ever treats as UTF-8 text are Lean
  `String`s; the two 8-byte binary encodings (list head/tail metadata and
  expiry timestamps) are `List Nat` byte lists, tagged by the value type
  `Val`.  `asUtf8` returns `none` on the binary tag, matching the failure of
  `String::from_utf8` on these encodings in the modelled flows.
* Rust `Result` values become `Except String α`; the engine's
  `format!("ERR {}", e)` turns the carried message into the reply.
-/

/-! ## Decimal printing and parsing (Rust `to_string` / `parse`) -/

/-- Value of an ASCII digit character, `none` for non-digits
(model of the per-character step of Rust's `str::parse`). -/
def digitVal (c : Char) : Option Nat :=
  if 48 ≤ c.toNat ∧ c.toNat ≤ 57 then some (c.toNat - 48) else none

/-- ASCII character of a digit below 10. -/
def digitChr (d : Nat) : Char := Char.ofNat (48 + d)

/-- Fuel-driven big-endian digit expansion; the fuel only bounds the depth
and `natDigitsF_irrel` shows any sufficient fuel gives the same digits. -/
def natDigitsF : Nat → Nat → List Nat
  | 0, n => [n % 10]
  | fuel + 1, n => if n < 10 then [n] else natDigitsF fuel (n / 10) ++ [n % 10]

/-- Big-endian decimal digit list of a natural number. -/
def natDigits (n : Nat) : List Nat := natDigitsF n n

theorem natDigitsF_irrel (n : Nat) : ∀ f1 f2 : Nat, n ≤ f1 → n ≤ f2 →
    natDigitsF f1 n = natDigitsF f2 n := by
  induction n using Nat.strong_induction_on with
  | _ n ih =>
    intro f1 f2 h1 h2
    by_cases hn : n < 10
    · match f1, f2 with
      | 0, 0 => rfl
      | 0, g2 + 1 =>
          simp [natDigitsF, hn, Nat.mod_eq_of_lt hn]
      | g1 + 1, 0 =>
          simp [natDigitsF, hn, Nat.mod_eq_of_lt hn]
      | g1 + 1, g2 + 1 => simp [natDigitsF, hn]
    · match f1, f2 with
      | 0, _ => omega
      | g1 + 1, 0 => omega
      | g1 + 1, g2 + 1 =>
          simp only [natDigitsF, hn, if_false]
          rw [ih (n / 10) (by omega) g1 g2 (by omega) (by omega)]

/-- The recurrence `natDigits` satisfies. -/
theorem natDigits_eq (n : Nat) :
    natDigits n = if n < 10 then [n] else natDigits (n / 10) ++ [n % 10] := by
  by_cases hn : n < 10
  · rw [if_pos hn]
    unfold natDigits
    match n with
    | 0 => rfl
    | m + 1 => simp [natDigitsF, hn]
  · rw [if_neg hn]
    unfold natDigits
    match n with
    | m + 1 =>
        simp only [natDigitsF, hn, if_false]
        rw [natDigitsF_irrel (((m : Nat) + 1) / 10) m ((m + 1) / 10) (by omega) (by omega)]

/-- Decimal string of a natural number (Rust `u64::to_string` and the
nonnegative case of `i64::to_string`). -/
def natDecStr (n : Nat) : String := String.mk ((natDigits n).map digitChr)

/-- Decimal string of a signed integer (Rust `i64::to_string`). -/
def intDecStr (v : Int) : String :=
  if v < 0 then "-" ++ natDecStr v.natAbs else natDecStr v.toNat

/-- Accumulating digit parser: consumes decimal digits, `none` on any
non-digit character. -/
def goDigits : List Char → Nat → Option Nat
  | [], acc => some acc
  | c :: rest, acc =>
      match digitVal c with
      | some d => goDigits rest (acc * 10 + d)
      | none => none

/-- Parse a nonempty all-digit character list to a `Nat`. -/
def parseDigits (cs : List Char) : Option Nat :=
  if cs.isEmpty then none else goDigits cs 0

/-- ASCII uppercase of one character (model of Rust `to_uppercase` on the
ASCII command verbs this server compares against). -/
def asciiUpper (c : Char) : Char :=
  if 97 ≤ c.toNat ∧ c.toNat ≤ 122 then Char.ofNat (c.toNat - 32) else c

/-- ASCII lowercase of one character (model of Rust `to_lowercase`). -/
def asciiLower (c : Char) : Char :=
  if 65 ≤ c.toNat ∧ c.toNat ≤ 90 then Char.ofNat (c.toNat + 32) else c

def strUpper (s : String) : String := String.mk (s.data.map asciiUpper)

def strLower (s : String) : String := String.mk (s.data.map asciiLower)

/-- Model of Rust `str::starts_with`. -/
def strStartsWith (s p : String) : Bool := p.data.isPrefixOf s.data

def maxI64 : Int := 2 ^ 63 - 1
def minI64 : Int := -(2 ^ 63)

/-- Character-list body of `parseI64`. -/
def parseI64Chars : List Char → Option Int
  | [] => none
  | c :: rest =>
      if c = Char.ofNat 45 then
        (parseDigits rest).bind fun n =>
          if (n : Int) ≤ 2 ^ 63 then some (-(n : Int)) else none
      else if c = Char.ofNat 43 then
        (parseDigits rest).bind fun n =>
          if (n : Int) ≤ maxI64 then some (n : Int) else none
      else
        (parseDigits (c :: rest)).bind fun n =>
          if (n : Int) ≤ maxI64 then some (n : Int) else none

/-- Model of Rust `str::parse::<i64>`: optional sign, at least one digit,
value within the `i64` range (out-of-range input is a parse error, as in
Rust, where the overflow is detected during accumulation). -/
def parseI64 (s : String) : Option Int := parseI64Chars s.data

/-- Character-list body of `parseU64`. -/
def parseU64Chars : List Char → Option Nat
  | [] => none
  | c :: rest =>
      if c = Char.ofNat 43 then
        (parseDigits rest).bind fun n =>
          if n < 2 ^ 64 then some n else none
      else
        (parseDigits (c :: rest)).bind fun n =>
          if n < 2 ^ 64 then some n else none

/-- Model of Rust `str::parse::<u64>` (used by the EXPIRE argument). -/
def parseU64 (s : String) : Option Nat := parseU64Chars s.data

theorem digitVal_digitChr {d : Nat} (h : d < 10) : digitVal (digitChr d) = some d := by
  interval_cases d <;> decide

theorem natDigits_lt_ten (n : Nat) : ∀ d ∈ natDigits n, d < 10 := by
  induction n using Nat.strong_induction_on with
  | _ n ih =>
    intro d hd
    rw [natDigits_eq] at hd
    by_cases h : n < 10
    · simp [h] at hd; omega
    · simp [h] at hd
      rcases hd with hd | hd
      · exact ih (n / 10) (Nat.div_lt_self (by omega) (by omega)) d hd
      · omega

theorem natDigits_ne_nil (n : Nat) : natDigits n ≠ [] := by
  rw [natDigits_eq]
  by_cases h : n < 10 <;> simp [h]

theorem goDigits_append (xs ys : List Char) (acc : Nat) :
    goDigits (xs ++ ys) acc =
      match goDigits xs acc with
      | some m => goDigits ys m
      | none => none := by
  induction xs generalizing acc with
  | nil => simp [goDigits]
  | cons c rest ih =>
    simp only [List.cons_append, goDigits]
    cases digitVal c with
    | some d => exact ih (acc * 10 + d)
    | none => rfl

theorem goDigits_natDigits (n acc : Nat) :
    goDigits ((natDigits n).map digitChr) acc = some (acc * 10 ^ (natDigits n).length + n) := by
  induction n using Nat.strong_induction_on generalizing acc with
  | _ n ih =>
    rw [natDigits_eq]
    by_cases h : n < 10
    · rw [if_pos h]
      simp only [List.map_cons, List.map_nil, goDigits,
        digitVal_digitChr h, List.length_cons, List.length_nil]
      congr 1
    · rw [if_neg h]
      simp only [List.map_append, List.map_cons, List.map_nil,
        goDigits_append, List.length_append, List.length_cons, List.length_nil]
      rw [ih (n / 10) (Nat.div_lt_self (by omega) (by omega)) acc]
      simp only [goDigits, digitVal_digitChr (Nat.mod_lt n (by omega))]
      congr 1
      have hdm := Nat.div_add_mod n 10
      ring_nf
      omega

/-- Round trip: parsing the decimal print of a natural number returns it. -/
theorem parseDigits_natDecStr (n : Nat) :
    parseDigits ((natDigits n).map digitChr) = some n := by
  unfold parseDigits
  rw [if_neg (by simp [natDigits_ne_nil n])]
  simpa using goDigits_natDigits n 0

theorem natDecStr_head_digit (n : Nat) :
    ∃ d rest, (natDigits n).map digitChr = digitChr d :: rest ∧ d < 10 := by
  cases hds : natDigits n with
  | nil => exact absurd hds (natDigits_ne_nil n)
  | cons d rest =>
    refine ⟨d, rest.map digitChr, by simp [hds], ?_⟩
    exact natDigits_lt_ten n d (by rw [hds]; exact List.mem_cons_self d rest)

/-- Round trip for `i64`: Rust's parser accepts Rust's printer's output and
returns the same value, for every value in the `i64` range. -/
theorem parseI64_intDecStr (v : Int) (h1 : minI64 ≤ v) (h2 : v ≤ maxI64) :
    parseI64 (intDecStr v) = some v := by
  obtain ⟨d, rest, hmap, hd⟩ := natDecStr_head_digit v.natAbs
  obtain ⟨d', rest', hmap', hd'⟩ := natDecStr_head_digit v.toNat
  have hdigit_ne_minus : ∀ e : Nat, e < 10 → ¬ (digitChr e = Char.ofNat 45) := by
    intro e he; interval_cases e <;> decide
  have hdigit_ne_plus : ∀ e : Nat, e < 10 → ¬ (digitChr e = Char.ofNat 43) := by
    intro e he; interval_cases e <;> decide
  by_cases hv : v < 0
  · have hrepr : intDecStr v = "-" ++ natDecStr v.natAbs := by simp [intDecStr, hv]
    have hdata : ("-" ++ natDecStr v.natAbs).data =
        Char.ofNat 45 :: (natDigits v.natAbs).map digitChr := by
      simp [natDecStr, String.data_append]
    unfold parseI64
    rw [hrepr, hdata]
    simp only [parseI64Chars, if_pos rfl]
    rw [parseDigits_natDecStr]
    have hva : ((v.natAbs : Int)) = -v := Int.ofNat_natAbs_of_nonpos (le_of_lt hv)
    have hrange : -v ≤ (2 : Int) ^ 63 := by simp only [minI64] at h1; omega
    simp only [Option.some_bind, hva, if_true]
    rw [if_pos hrange]
    exact congrArg some (neg_neg v)
  · have hrepr : intDecStr v = natDecStr v.toNat := by simp [intDecStr, hv]
    have hdata : (natDecStr v.toNat).data = (natDigits v.toNat).map digitChr := rfl
    unfold parseI64
    rw [hrepr, hdata, hmap']
    simp only [parseI64Chars]
    rw [if_neg (hdigit_ne_minus d' hd'), if_neg (hdigit_ne_plus d' hd')]
    rw [← hmap', parseDigits_natDecStr]
    have hrange : ((v.toNat : Int)) ≤ maxI64 := by
      simp only [maxI64] at h2 ⊢; omega
    simp only [Option.some_bind, if_pos hrange, Option.some.injEq]
    omega

/-! ## The ordered byte store (sled tree `""`, `src/engine/kv.rs`)

Values in the tree are byte strings.  The embedding tags them: `vstr` for
values the code reads and writes as UTF-8 text, `vbytes` for the 8-byte
big-endian encodings written by the list-metadata and expiry code. -/

inductive Val where
  | vstr (s : String)
  | vbytes (bs : List Nat)
deriving DecidableEq, Repr

/-- Model of `String::from_utf8` on a stored value: text values decode to
themselves; the 8-byte binary encodings are not valid UTF-8 text in the
modelled flows, so they fail to decode. -/
def asUtf8 : Val → Option String
  | Val.vstr s => some s
  | Val.vbytes _ => none

/-- The engine tree: an association list from physical keys to values.
All reads take the first matching entry; the operations below keep keys
unique, mirroring a map. -/
abbrev Store := List (String × Val)

/-- Point lookup (`Tree::get`). -/
def kvGet : Store → String → Option Val
  | [], _ => none
  | (k, v) :: rest, key => if k = key then some v else kvGet rest key

/-- Point insert (`Tree::insert`); overwrites an existing entry in place.
The previous value, which sled returns, is `kvGet st key`. -/
def kvInsert : Store → String → Val → Store
  | [], key, v => [(key, v)]
  | (k, w) :: rest, key, v =>
      if k = key then (key, v) :: rest else (k, w) :: kvInsert rest key v

/-- Point remove (`Tree::remove`); the previous value is `kvGet st key`. -/
def kvRemove : Store → String → Store
  | [], _ => []
  | (k, w) :: rest, key => if k = key then rest else (k, w) :: kvRemove rest key

/-- Insert into a key-sorted list (helper for `scanPref`). -/
def insortKey (x : String × Val) : List (String × Val) → List (String × Val)
  | [] => [x]
  | y :: rest => if x.1 < y.1 then x :: y :: rest else y :: insortKey x rest

def sortByKey (l : List (String × Val)) : List (String × Val) :=
  l.foldr insortKey []

/-- `Tree::scan_prefix` of the direct view: all entries whose key starts
with `p`, in sled's byte order (here: string order on the keys). -/
def scanPref (st : Store) (p : String) : List (String × Val) :=
  sortByKey (st.filter fun e => p.isPrefixOf e.1)

theorem kvGet_insert_self (st : Store) (k : String) (v : Val) :
    kvGet (kvInsert st k v) k = some v := by
  induction st with
  | nil => simp [kvInsert, kvGet]
  | cons e rest ih =>
    by_cases h : e.1 = k
    · simp [kvInsert, kvGet, h]
    · simpa [kvInsert, kvGet, h] using ih

theorem kvGet_insert_ne (st : Store) (k k' : String) (v : Val) (h : k' ≠ k) :
    kvGet (kvInsert st k v) k' = kvGet st k' := by
  have h' : ¬ (k = k') := fun hh => h hh.symm
  induction st with
  | nil => simp [kvInsert, kvGet, h']
  | cons e rest ih =>
    by_cases he : e.1 = k
    · subst he
      simp [kvInsert, kvGet, h']
    · cases e with
      | mk ek ev =>
        simp only [kvInsert, kvGet, he, if_false]
        by_cases he' : ek = k'
        · simp [kvGet, he']
        · simpa [kvGet, he'] using ih

theorem kvGet_remove_ne (st : Store) (k k' : String) (h : k' ≠ k) :
    kvGet (kvRemove st k) k' = kvGet st k' := by
  have h' : ¬ (k = k') := fun hh => h hh.symm
  induction st with
  | nil => simp [kvRemove, kvGet]
  | cons e rest ih =>
    by_cases he : e.1 = k
    · subst he
      simp [kvRemove, kvGet, h']
    · cases e with
      | mk ek ev =>
        simp only [kvRemove, kvGet, he, if_false]
        by_cases he' : ek = k'
        · simp [kvGet, he']
        · simpa [kvGet, he'] using ih

/-- Keys of a store, for the uniqueness discipline the operations keep. -/
def storeKeys (st : Store) : List String := st.map Prod.fst

theorem kvGet_remove_self_of_nodup (st : Store) (k : String)
    (hu : (storeKeys st).Nodup) :
    kvGet (kvRemove st k) k = none := by
  induction st with
  | nil => simp [kvRemove, kvGet]
  | cons e rest ih =>
    have hnd : (storeKeys rest).Nodup := (List.nodup_cons.mp hu).2
    have hnotmem : e.1 ∉ storeKeys rest := (List.nodup_cons.mp hu).1
    by_cases h : e.1 = k
    · subst h
      have hnone : kvGet rest e.1 = none := by
        clear ih hu hnd
        induction rest with
        | nil => simp [kvGet]
        | cons f rest2 ih2 =>
          have hf : ¬ (f.1 = e.1) := by
            intro hc
            exact hnotmem (by simp [storeKeys, hc])
          simp only [kvGet, hf, if_false]
          exact ih2 (by
            intro hc
            exact hnotmem (by simp [storeKeys]; right; simpa [storeKeys] using hc))
      simpa [kvRemove] using hnone
    · simp only [kvRemove, h, if_false]
      simp only [kvGet, h, if_false]
      exact ih hnd

/-! ## 8-byte big-endian encodings and the list sequence encoding -/

/-- `u64::to_be_bytes` (`src/expire.rs` writes `ts.to_be_bytes()`). -/
def u64ToBe8 (n : Nat) : List Nat :=
  [n / 2 ^ 56 % 256, n / 2 ^ 48 % 256, n / 2 ^ 40 % 256, n / 2 ^ 32 % 256,
   n / 2 ^ 24 % 256, n / 2 ^ 16 % 256, n / 2 ^ 8 % 256, n % 256]

/-- `u64::from_be_bytes` on an 8-byte list. -/
def be8ToNat (bs : List Nat) : Nat := bs.foldl (fun acc b => acc * 256 + b) 0

/-- `i64::to_be_bytes` (`src/types/list.rs` writes `value.to_be_bytes()`):
the two's-complement image of the signed value, big-endian. -/
def i64ToBe8 (v : Int) : List Nat := u64ToBe8 (v % (2 ^ 64 : Int)).toNat

/-- `i64::from_be_bytes`: decode 8 bytes and reinterpret bit 63 as the sign. -/
def be8ToI64 (bs : List Nat) : Int :=
  if be8ToNat bs < 2 ^ 63 then (be8ToNat bs : Int) else (be8ToNat bs : Int) - 2 ^ 64

theorem be8_u64_roundtrip (n : Nat) (h : n < 2 ^ 64) : be8ToNat (u64ToBe8 n) = n := by
  simp only [u64ToBe8, be8ToNat, List.foldl]
  omega

theorem be8_i64_roundtrip (v : Int) (h1 : minI64 ≤ v) (h2 : v ≤ maxI64) :
    be8ToI64 (i64ToBe8 v) = v := by
  simp only [minI64, maxI64] at h1 h2
  have hmod : (v % (2 ^ 64 : Int)) = if 0 ≤ v then v else v + 2 ^ 64 := by
    by_cases hv : 0 ≤ v
    · rw [if_pos hv]
      exact Int.emod_eq_of_lt hv (by omega)
    · rw [if_neg hv]
      have : v % (2 ^ 64 : Int) = (v + 2 ^ 64) % (2 ^ 64 : Int) := by
        omega
      rw [this]
      exact Int.emod_eq_of_lt (by omega) (by omega)
  unfold be8ToI64 i64ToBe8
  by_cases hv : 0 ≤ v
  · rw [hmod, if_pos hv]
    rw [be8_u64_roundtrip v.toNat (by omega)]
    rw [if_pos (by omega)]
    omega
  · rw [hmod, if_neg hv]
    have hrt := be8_u64_roundtrip (v + 2 ^ 64).toNat (by omega)
    rw [hrt, if_neg (by omega)]
    omega

/-- `seq_to_u64` (`src/types/list.rs`): `(seq as u64) ^ (1 << 63)`. -/
def seqToU64 (seq : Int) : Nat :=
  (seq % (2 ^ 64 : Int)).toNat ^^^ (1 <<< 63)

theorem xor_two_pow_63_of_lt {n : Nat} (h : n < 2 ^ 63) :
    n ^^^ 2 ^ 63 = n + 2 ^ 63 := by
  apply Nat.eq_of_testBit_eq
  intro i
  rcases Nat.lt_trichotomy i 63 with hi | hi | hi
  · rw [Nat.testBit_xor, Nat.testBit_two_pow_of_ne (by omega),
      Nat.add_comm n (2 ^ 63), Nat.testBit_two_pow_add_gt hi]
    simp
  · subst hi
    rw [Nat.testBit_xor, Nat.testBit_two_pow_self,
      Nat.add_comm n (2 ^ 63), Nat.testBit_two_pow_add_eq,
      Nat.testBit_lt_two_pow h]
    simp
  · have hxl : n ^^^ 2 ^ 63 < 2 ^ i :=
      Nat.xor_lt_two_pow (by calc n < 2 ^ 63 := h
                                 _ ≤ 2 ^ i := Nat.pow_le_pow_right (by omega) (by omega))
        (by calc (2 : Nat) ^ 63 < 2 ^ 64 := by norm_num
                 _ ≤ 2 ^ i := Nat.pow_le_pow_right (by omega) (by omega))
    have hsl : n + 2 ^ 63 < 2 ^ i := by
      have h64 : (2 : Nat) ^ 64 ≤ 2 ^ i := Nat.pow_le_pow_right (by omega) (by omega)
      have : n + 2 ^ 63 < 2 ^ 64 := by
        have : (2 : Nat) ^ 63 + 2 ^ 63 = 2 ^ 64 := by norm_num
        omega
      omega
    rw [Nat.testBit_lt_two_pow hxl, Nat.testBit_lt_two_pow hsl]

/-- The sign-bit flip written out arithmetically: on the `i64` range,
`seq_to_u64` is exactly `seq + 2^63`. -/
theorem seqToU64_char (v : Int) (h1 : minI64 ≤ v) (h2 : v ≤ maxI64) :
    seqToU64 v = (v + 2 ^ 63).toNat := by
  simp only [minI64, maxI64] at h1 h2
  unfold seqToU64
  have hshift : (1 <<< 63 : Nat) = 2 ^ 63 := by simp [Nat.shiftLeft_eq]
  by_cases hv : 0 ≤ v
  · have hmod : (v % (2 ^ 64 : Int)) = v := Int.emod_eq_of_lt hv (by omega)
    rw [hmod, hshift, xor_two_pow_63_of_lt (by omega)]
    omega
  · have hmod : (v % (2 ^ 64 : Int)) = v + 2 ^ 64 := by
      have : v % (2 ^ 64 : Int) = (v + 2 ^ 64) % (2 ^ 64 : Int) := by omega
      rw [this]
      exact Int.emod_eq_of_lt (by omega) (by omega)
    rw [hmod, hshift]
    have hdecomp : (v + 2 ^ 64).toNat = (v + 2 ^ 63).toNat + 2 ^ 63 := by omega
    have hlt : (v + 2 ^ 63).toNat < 2 ^ 63 := by omega
    rw [hdecomp, ← xor_two_pow_63_of_lt hlt, Nat.xor_assoc]
    simp

deriving instance DecidableEq for Except

/-! ## Physical keys (§3 of the spec, `const PREFIX` of each type module) -/

def strKey (k : String) : String := "string:" ++ k

def hashKey (k f : String) : String := "hash:" ++ k ++ ":" ++ f

def setKey (k m : String) : String := "set:" ++ k ++ ":" ++ m

def expKey (k : String) : String := "expire:" ++ k

/-- List data key (`src/types/list.rs`): `format!("{}{}:{}", DATA_PREFIX, key,
seq_to_u64(seq))` — note the `u64` is rendered by `Display`, i.e. as its
decimal digits, not as raw bytes. -/
def dataKey (k : String) (seq : Int) : String :=
  "list:data:" ++ k ++ ":" ++ natDecStr (seqToU64 seq)

def headKey (k : String) : String := "list:meta:" ++ k ++ ":head"

def tailKey (k : String) : String := "list:meta:" ++ k ++ ":tail"

/-! ## String type module (`src/types/string.rs`) -/

namespace Str

/-- `string::set`. -/
def set (st : Store) (key value : String) : String × Store :=
  ("OK", kvInsert st (strKey key) (Val.vstr value))

/-- `string::get`.  A missing key is the `Ok("ERR key not found")` reply,
not an error. -/
def get (st : Store) (key : String) : Except String String :=
  match kvGet st (strKey key) with
  | some v =>
      match asUtf8 v with
      | some s => Except.ok s
      | none => Except.error ("ERR non-utf8 data for key \x27" ++ key ++ "\x27")
  | none => Except.ok "ERR key not found"

/-- `string::del`. -/
def del (st : Store) (key : String) : String × Store :=
  let existed := kvGet st (strKey key) ≠ none
  (if existed then "OK" else "ERR key not found", kvRemove st (strKey key))

/-- `string::incr`, direct arm (`as_db()` is `Some`): the read-modify-write
runs inside a store transaction, so an abort leaves the store unchanged. -/
def incrDirect (st : Store) (key : String) : Except String String × Store :=
  let fullKey := strKey key
  match kvGet st fullKey with
  | some v =>
      match asUtf8 v with
      | none => (Except.error "ERR value is not a valid UTF-8 string", st)
      | some s =>
          match parseI64 s with
          | none => (Except.error "ERR value is not an integer", st)
          | some old =>
              if maxI64 < old + 1 then
                (Except.error "ERR increment would overflow", st)
              else
                (Except.ok (intDecStr (old + 1)),
                  kvInsert st fullKey (Val.vstr (intDecStr (old + 1))))
  | none =>
      (Except.ok (intDecStr 1), kvInsert st fullKey (Val.vstr (intDecStr 1)))

/-- `string::incr`, transactional arm: parse failures silently default to 0
(`.ok()`/`unwrap_or(0)`), only overflow is an error. -/
def incrTxn (st : Store) (key : String) : Except String String × Store :=
  let fullKey := strKey key
  let old := (((kvGet st fullKey).bind asUtf8).bind parseI64).getD 0
  if maxI64 < old + 1 then (Except.error "overflow", st)
  else
    (Except.ok (intDecStr (old + 1)),
      kvInsert st fullKey (Val.vstr (intDecStr (old + 1))))

def incr (direct : Bool) (st : Store) (key : String) : Except String String × Store :=
  if direct then incrDirect st key else incrTxn st key

/-- `string::decr`, direct arm. -/
def decrDirect (st : Store) (key : String) : Except String String × Store :=
  let fullKey := strKey key
  match kvGet st fullKey with
  | some v =>
      match asUtf8 v with
      | none => (Except.error "ERR value is not a valid UTF-8 string", st)
      | some s =>
          match parseI64 s with
          | none => (Except.error "ERR value is not an integer", st)
          | some old =>
              if old - 1 < minI64 then
                (Except.error "ERR decrement would underflow", st)
              else
                (Except.ok (intDecStr (old - 1)),
                  kvInsert st fullKey (Val.vstr (intDecStr (old - 1))))
  | none =>
      (Except.ok (intDecStr (-1)), kvInsert st fullKey (Val.vstr (intDecStr (-1))))

/-- `string::decr`, transactional arm. -/
def decrTxn (st : Store) (key : String) : Except String String × Store :=
  let fullKey := strKey key
  let old := (((kvGet st fullKey).bind asUtf8).bind parseI64).getD 0
  if old - 1 < minI64 then (Except.error "underflow", st)
  else
    (Except.ok (intDecStr (old - 1)),
      kvInsert st fullKey (Val.vstr (intDecStr (old - 1))))

def decr (direct : Bool) (st : Store) (key : String) : Except String String × Store :=
  if direct then decrDirect st key else decrTxn st key

end Str

/-! ## Hash type module (`src/types/hash.rs`) -/

/-- `scan_prefix` as each view provides it: the direct view scans the tree,
the transactional view returns the empty iterator (`src/engine/kv.rs`). -/
def scanView (direct : Bool) (st : Store) (p : String) : List (String × Val) :=
  if direct then scanPref st p else []

namespace Hsh

/-- `hash::hset`. -/
def hset (st : Store) (key field value : String) : String × Store :=
  let prev := kvGet st (hashKey key field)
  (if prev = none then "1" else "0",
    kvInsert st (hashKey key field) (Val.vstr value))

/-- `hash::hget`. -/
def hget (st : Store) (key field : String) : Except String String :=
  match kvGet st (hashKey key field) with
  | some v =>
      match asUtf8 v with
      | some s => Except.ok s
      | none => Except.error "ERR non-utf8 in HGET"
  | none => Except.ok "nil"

/-- `hash::hdel`. -/
def hdel (st : Store) (key field : String) : String × Store :=
  let removed := kvGet st (hashKey key field)
  (if removed = none then "0" else "1", kvRemove st (hashKey key field))

/-- `hash::hkeys`: field names are the scanned keys with the
`hash:<key>:` prefix dropped. -/
def hkeys (direct : Bool) (st : Store) (key : String) : String :=
  let p := "hash:" ++ key ++ ":"
  String.intercalate "," ((scanView direct st p).map fun e => e.1.drop p.length)

/-- `hash::hvals`; a non-UTF-8 value is an error. -/
def hvals (direct : Bool) (st : Store) (key : String) : Except String String :=
  let p := "hash:" ++ key ++ ":"
  let step : Except String (List String) → (String × Val) → Except String (List String) :=
    fun acc e =>
      acc.bind fun l =>
        match asUtf8 e.2 with
        | some s => Except.ok (l ++ [s])
        | none => Except.error "ERR invalid utf-8 sequence"
  ((scanView direct st p).foldl step (Except.ok [])).map (String.intercalate ",")

/-- `hash::hgetall`: interleaved `field,value` pairs in scan order. -/
def hgetall (direct : Bool) (st : Store) (key : String) : Except String String :=
  let p := "hash:" ++ key ++ ":"
  let step : Except String (List String) → (String × Val) → Except String (List String) :=
    fun acc e =>
      acc.bind fun l =>
        match asUtf8 e.2 with
        | some s => Except.ok (l ++ [e.1.drop p.length, s])
        | none => Except.error "ERR invalid utf-8 sequence"
  ((scanView direct st p).foldl step (Except.ok [])).map (String.intercalate ",")

end Hsh

/-! ## Set type module (`src/types/set.rs`) -/

namespace RSet

/-- `set::sadd`: members are keys with the empty byte string as value. -/
def sadd (st : Store) (key member : String) : String × Store :=
  let prev := kvGet st (setKey key member)
  (if prev = none then "1" else "0",
    kvInsert st (setKey key member) (Val.vbytes []))

/-- `set::srem`. -/
def srem (st : Store) (key member : String) : String × Store :=
  let prev := kvGet st (setKey key member)
  (if prev = none then "0" else "1", kvRemove st (setKey key member))

/-- `set::sismember`. -/
def sismember (st : Store) (key member : String) : String :=
  if kvGet st (setKey key member) = none then "0" else "1"

/-- `set::smembers`. -/
def smembers (direct : Bool) (st : Store) (key : String) : String :=
  let p := "set:" ++ key ++ ":"
  String.intercalate "," ((scanView direct st p).map fun e => e.1.drop p.length)

end RSet

/-! ## List type module (`src/types/list.rs`) -/

namespace Lst

/-- `get_i64`: read an 8-byte big-endian `i64` metadata value.
`bs.as_ref().try_into()` fails unless the value is exactly 8 bytes; in the
modelled flows metadata keys only ever hold `vbytes` of length 8. -/
def getI64 (st : Store) (key : String) : Except String (Option Int) :=
  match kvGet st key with
  | none => Except.ok none
  | some (Val.vbytes bs) =>
      if bs.length = 8 then Except.ok (some (be8ToI64 bs))
      else Except.error "ERR could not convert slice to array"
  | some (Val.vstr _) => Except.error "ERR could not convert slice to array"

/-- `get_bounds`: `none` when the head metadata is absent; a present head
with an absent tail is the `Missing tail metadata` error. -/
def getBounds (st : Store) (key : String) : Except String (Option (Int × Int)) :=
  match getI64 st (headKey key) with
  | Except.error e => Except.error e
  | Except.ok none => Except.ok none
  | Except.ok (some h) =>
      match getI64 st (tailKey key) with
      | Except.error e => Except.error e
      | Except.ok none =>
          Except.error ("Missing tail metadata for list \x27" ++ key ++ "\x27")
      | Except.ok (some t) => Except.ok (some (h, t))

/-- `lpush`.  The direct arm wraps the three writes in an inner store
transaction and the transactional arm issues them against the outer
transaction; both perform the same three inserts on the engine tree, so the
embedding shares one body.  The reply is the new length, an `i64` cast
`as usize` (wrapping). -/
def lpush (st : Store) (key value : String) : Except String String × Store :=
  match getBounds st key with
  | Except.error e => (Except.error e, st)
  | Except.ok bounds =>
      let hd := (bounds.getD (0, -1)).1
      let tl := (bounds.getD (0, -1)).2
      let newHead := hd - 1
      let st1 := kvInsert st (dataKey key newHead) (Val.vstr value)
      let st2 := kvInsert st1 (headKey key) (Val.vbytes (i64ToBe8 newHead))
      let st3 :=
        if tl < hd then kvInsert st2 (tailKey key) (Val.vbytes (i64ToBe8 newHead))
        else st2
      let newTail := if tl < hd then newHead else tl
      let len := ((newTail - newHead + 1) % (2 ^ 64 : Int)).toNat
      (Except.ok (natDecStr len), st3)

/-- `rpush`, mirror image of `lpush`. -/
def rpush (st : Store) (key value : String) : Except String String × Store :=
  match getBounds st key with
  | Except.error e => (Except.error e, st)
  | Except.ok bounds =>
      let hd := (bounds.getD (0, -1)).1
      let tl := (bounds.getD (0, -1)).2
      let newTail := tl + 1
      let st1 := kvInsert st (dataKey key newTail) (Val.vstr value)
      let st2 := kvInsert st1 (tailKey key) (Val.vbytes (i64ToBe8 newTail))
      let st3 :=
        if tl < hd then kvInsert st2 (headKey key) (Val.vbytes (i64ToBe8 newTail))
        else st2
      let newHead := if tl < hd then newTail else hd
      let len := ((newTail - newHead + 1) % (2 ^ 64 : Int)).toNat
      (Except.ok (natDecStr len), st3)

/-- `lpop`.  The metadata update happens before `String::from_utf8` can
fail, so a non-UTF-8 element leaves the store already mutated. -/
def lpop (st : Store) (key : String) : Except String String × Store :=
  match getBounds st key with
  | Except.error e => (Except.error e, st)
  | Except.ok none => (Except.ok "nil", st)
  | Except.ok (some (hd, tl)) =>
      match kvGet st (dataKey key hd) with
      | none => (Except.ok "nil", st)
      | some bv =>
          let st1 := kvRemove st (dataKey key hd)
          let st2 :=
            if tl < hd + 1 then
              kvRemove (kvRemove st1 (headKey key)) (tailKey key)
            else kvInsert st1 (headKey key) (Val.vbytes (i64ToBe8 (hd + 1)))
          match asUtf8 bv with
          | some s => (Except.ok s, st2)
          | none => (Except.error "ERR invalid utf-8 sequence", st2)

/-- `rpop`, mirror image of `lpop`. -/
def rpop (st : Store) (key : String) : Except String String × Store :=
  match getBounds st key with
  | Except.error e => (Except.error e, st)
  | Except.ok none => (Except.ok "nil", st)
  | Except.ok (some (hd, tl)) =>
      match kvGet st (dataKey key tl) with
      | none => (Except.ok "nil", st)
      | some bv =>
          let st1 := kvRemove st (dataKey key tl)
          let st2 :=
            if tl - 1 < hd then
              kvRemove (kvRemove st1 (headKey key)) (tailKey key)
            else kvInsert st1 (tailKey key) (Val.vbytes (i64ToBe8 (tl - 1)))
          match asUtf8 bv with
          | some s => (Except.ok s, st2)
          | none => (Except.error "ERR invalid utf-8 sequence", st2)

/-- The `for idx in s..=e` loop body of `lrange`: point-reads the data key
of each position, skips absent keys, fails on a non-UTF-8 element. -/
def lrangeCollect (st : Store) (key : String) : Int → Nat → Except String (List String)
  | _, 0 => Except.ok []
  | seq, cnt + 1 =>
      match kvGet st (dataKey key seq) with
      | some v =>
          match asUtf8 v with
          | some s => (lrangeCollect st key (seq + 1) cnt).map fun l => s :: l
          | none => Except.error "ERR invalid utf-8 sequence"
      | none => lrangeCollect st key (seq + 1) cnt

/-- `lrange`: normalize negative indices, clamp into `[0, total-1]`, empty
result when the normalized start exceeds the stop. -/
def lrange (st : Store) (key : String) (start stop : Int) : Except String String :=
  match getBounds st key with
  | Except.error e => Except.error e
  | Except.ok none => Except.ok ""
  | Except.ok (some (hd, tl)) =>
      let total := tl - hd + 1
      if total ≤ 0 then Except.ok ""
      else
        let s0 := if start < 0 then total + start else start
        let e0 := if stop < 0 then total + stop else stop
        let s1 := min (max s0 0) (total - 1)
        let e1 := min (max e0 0) (total - 1)
        if e1 < s1 then Except.ok ""
        else
          (lrangeCollect st key (hd + s1) (e1 - s1 + 1).toNat).map
            (String.intercalate ",")

end Lst

/-! ## TTL subsystem (`src/expire.rs`) -/

namespace Exp

/-- `remove_key`: in the engine tree the purge removes the raw key `key`
itself and the `expire:key` entry.  The `drop_tree` calls target the
separately-named sled trees `hash:<K>`, `list:<K>`, `set:<K>`,
`string:<K>`; no modelled operation ever writes to those trees (the type
modules write prefixed keys of the engine tree), so dropping them does not
change the engine tree. -/
def removeKey (st : Store) (key : String) : Store :=
  kvRemove (kvRemove st key) (expKey key)

/-- `expire`: `now_ms().saturating_add(secs * 1_000)`; the multiplication
wraps as `u64` and the addition saturates at `u64::MAX`. -/
def expireCmd (now : Nat) (st : Store) (key : String) (secs : Nat) : String × Store :=
  let ts := min (now + secs * 1000 % 2 ^ 64) (2 ^ 64 - 1)
  let prev := kvGet st (expKey key)
  (if prev = none then "1" else "0",
    kvInsert st (expKey key) (Val.vbytes (u64ToBe8 ts)))

/-- `ttl`.  The `PANIC` branch models Rust's `copy_from_slice` panic on a
malformed expiry value; it is unreachable for stores in which `expire:`
entries hold 8-byte encodings, as all modelled flows keep them. -/
def ttlCmd (now : Nat) (st : Store) (key : String) : Except String String × Store :=
  match kvGet st (expKey key) with
  | none => (Except.ok "-1", st)
  | some (Val.vbytes bs) =>
      if bs.length = 8 then
        let t := be8ToNat bs
        if t ≤ now then (Except.ok "-2", removeKey st key)
        else (Except.ok (natDecStr ((t - now + 999) / 1000)), st)
      else (Except.error "PANIC copy_from_slice length mismatch", st)
  | some (Val.vstr _) => (Except.error "PANIC copy_from_slice length mismatch", st)

/-- `persist`. -/
def persistCmd (st : Store) (key : String) : String × Store :=
  let prev := kvGet st (expKey key)
  (if prev = none then "0" else "1", kvRemove st (expKey key))

/-- `remove_if_expired`.  The malformed-value branches model a Rust panic,
unreachable as for `ttlCmd`; a fresh or non-stale expiry leaves the store
untouched. -/
def removeIfExpired (now : Nat) (st : Store) (key : String) : Store :=
  match kvGet st (expKey key) with
  | some (Val.vbytes bs) =>
      if bs.length = 8 then
        if be8ToNat bs ≤ now then removeKey st key else st
      else st
  | some (Val.vstr _) => st
  | none => st

end Exp

/-! ## Command dispatcher (`src/engine/mod.rs`, `execute_non_txn_command`)

`direct` is `db.as_db().is_some()`: `true` for the direct view, `false`
inside an EXEC transaction (where `scan_prefix` is empty and the
read-modify-write commands take their fallback arms). -/

def execNonTxn (direct : Bool) (now : Nat) (cmd : String) (parts : List String)
    (st : Store) : String × Store :=
  if cmd = "SET" then
    if parts.length ≠ 3 then ("ERR wrong number of arguments for \x27SET\x27", st)
    else Str.set st (parts.getD 1 "") (parts.getD 2 "")
  else if cmd = "GET" then
    if parts.length ≠ 2 then ("ERR wrong number of arguments for \x27GET\x27", st)
    else
      match Str.get st (parts.getD 1 "") with
      | Except.ok s => (s, st)
      | Except.error e => ("ERR " ++ e, st)
  else if cmd = "DEL" then
    if parts.length ≠ 2 then ("ERR wrong number of arguments for \x27DEL\x27", st)
    else Str.del st (parts.getD 1 "")
  else if cmd = "INCR" then
    if parts.length ≠ 2 then ("ERR wrong number of arguments for \x27INCR\x27", st)
    else
      match Str.incr direct st (parts.getD 1 "") with
      | (Except.ok s, st') => (s, st')
      | (Except.error e, st') => ("ERR " ++ e, st')
  else if cmd = "DECR" then
    if parts.length ≠ 2 then ("ERR wrong number of arguments for \x27DECR\x27", st)
    else
      match Str.decr direct st (parts.getD 1 "") with
      | (Except.ok s, st') => (s, st')
      | (Except.error e, st') => ("ERR " ++ e, st')
  else if cmd = "HSET" then
    if parts.length ≠ 4 then ("ERR wrong number of arguments for \x27HSET\x27", st)
    else Hsh.hset st (parts.getD 1 "") (parts.getD 2 "") (parts.getD 3 "")
  else if cmd = "HGET" then
    if parts.length ≠ 3 then ("ERR wrong number of arguments for \x27HGET\x27", st)
    else
      match Hsh.hget st (parts.getD 1 "") (parts.getD 2 "") with
      | Except.ok s => (s, st)
      | Except.error e => ("ERR " ++ e, st)
  else if cmd = "HDEL" then
    if parts.length ≠ 3 then ("ERR wrong number of arguments for \x27HDEL\x27", st)
    else Hsh.hdel st (parts.getD 1 "") (parts.getD 2 "")
  else if cmd = "HKEYS" then
    if parts.length ≠ 2 then ("ERR wrong number of arguments for \x27HKEYS\x27", st)
    else (Hsh.hkeys direct st (parts.getD 1 ""), st)
  else if cmd = "HVALS" then
    if parts.length ≠ 2 then ("ERR wrong number of arguments for \x27HVALS\x27", st)
    else
      match Hsh.hvals direct st (parts.getD 1 "") with
      | Except.ok s => (s, st)
      | Except.error e => ("ERR " ++ e, st)
  else if cmd = "HGETALL" then
    if parts.length ≠ 2 then ("ERR wrong number of arguments for \x27HGETALL\x27", st)
    else
      match Hsh.hgetall direct st (parts.getD 1 "") with
      | Except.ok s => (s, st)
      | Except.error e => ("ERR " ++ e, st)
  else if cmd = "LPUSH" then
    if parts.length ≠ 3 then ("ERR wrong number of arguments for \x27LPUSH\x27", st)
    else
      match Lst.lpush st (parts.getD 1 "") (parts.getD 2 "") with
      | (Except.ok s, st') => (s, st')
      | (Except.error e, st') => ("ERR " ++ e, st')
  else if cmd = "RPUSH" then
    if parts.length ≠ 3 then ("ERR wrong number of arguments for \x27RPUSH\x27", st)
    else
      match Lst.rpush st (parts.getD 1 "") (parts.getD 2 "") with
      | (Except.ok s, st') => (s, st')
      | (Except.error e, st') => ("ERR " ++ e, st')
  else if cmd = "LPOP" then
    if parts.length ≠ 2 then ("ERR wrong number of arguments for \x27LPOP\x27", st)
    else
      match Lst.lpop st (parts.getD 1 "") with
      | (Except.ok s, st') => (s, st')
      | (Except.error e, st') => ("ERR " ++ e, st')
  else if cmd = "RPOP" then
    if parts.length ≠ 2 then ("ERR wrong number of arguments for \x27RPOP\x27", st)
    else
      match Lst.rpop st (parts.getD 1 "") with
      | (Except.ok s, st') => (s, st')
      | (Except.error e, st') => ("ERR " ++ e, st')
  else if cmd = "LRANGE" then
    if parts.length ≠ 4 then ("ERR wrong number of arguments for \x27LRANGE\x27", st)
    else
      match parseI64 (parts.getD 2 ""), parseI64 (parts.getD 3 "") with
      | some s0, some e0 =>
          match Lst.lrange st (parts.getD 1 "") s0 e0 with
          | Except.ok r => (r, st)
          | Except.error er => ("ERR " ++ er, st)
      | _, _ => ("ERR invalid start or stop", st)
  else if cmd = "SADD" then
    if parts.length ≠ 3 then ("ERR wrong number of arguments for \x27SADD\x27", st)
    else RSet.sadd st (parts.getD 1 "") (parts.getD 2 "")
  else if cmd = "SREM" then
    if parts.length ≠ 3 then ("ERR wrong number of arguments for \x27SREM\x27", st)
    else RSet.srem st (parts.getD 1 "") (parts.getD 2 "")
  else if cmd = "SMEMBERS" then
    if parts.length ≠ 2 then ("ERR wrong number of arguments for \x27SMEMBERS\x27", st)
    else (RSet.smembers direct st (parts.getD 1 ""), st)
  else if cmd = "SISMEMBER" then
    if parts.length ≠ 3 then ("ERR wrong number of arguments for \x27SISMEMBER\x27", st)
    else (RSet.sismember st (parts.getD 1 "") (parts.getD 2 ""), st)
  else if cmd = "EXPIRE" then
    if parts.length ≠ 3 then ("ERR wrong number of arguments for \x27EXPIRE\x27", st)
    else
      match parseU64 (parts.getD 2 "") with
      | some secs => Exp.expireCmd now st (parts.getD 1 "") secs
      | none => ("ERR value is not an integer or out of range", st)
  else if cmd = "TTL" then
    if parts.length ≠ 2 then ("ERR wrong number of arguments for \x27TTL\x27", st)
    else
      match Exp.ttlCmd now st (parts.getD 1 "") with
      | (Except.ok v, st') => (v, st')
      | (Except.error e, st') => ("ERR " ++ e, st')
  else if cmd = "PERSIST" then
    if parts.length ≠ 2 then ("ERR wrong number of arguments for \x27PERSIST\x27", st)
    else Exp.persistCmd st (parts.getD 1 "")
  else if cmd = "PING" then ("PONG", st)
  else if cmd = "QUIT" then ("OK", st)
  else ("ERR unknown command \x27" ++ cmd ++ "\x27", st)

/-! ## Transaction session (`src/txn/session.rs`) and EXEC (`src/txn/executor.rs`) -/

structure TxnSession where
  in_multi : Bool
  queue : List (List String)
deriving DecidableEq, Repr

namespace TxnSession

def new : TxnSession := { in_multi := false, queue := [] }

/-- `TxnSession::begin` folded through the engine's
`.map(..).unwrap_or_else(..)`: a reply plus the next session state. -/
def beginS (s : TxnSession) : String × TxnSession :=
  if s.in_multi then ("ERR MULTI calls can not be nested", s)
  else ("OK", { in_multi := true, queue := [] })

/-- `TxnSession::enqueue`; `none` is the `Err(())` arm. -/
def enqueueS (s : TxnSession) (cmd : List String) : Option (String × TxnSession) :=
  if s.in_multi then some ("QUEUED", { s with queue := s.queue ++ [cmd] })
  else none

/-- `TxnSession::discard`. -/
def discardS (s : TxnSession) : String × TxnSession :=
  if s.in_multi then ("OK", { in_multi := false, queue := [] })
  else ("ERR DISCARD without MULTI", s)

/-- `TxnSession::take_queue`: drains the queue and leaves MULTI mode. -/
def takeQueue (s : TxnSession) : Except String (List (List String) × TxnSession) :=
  if s.in_multi then Except.ok (s.queue, { in_multi := false, queue := [] })
  else Except.error "ERR EXEC without MULTI"

/-- `TxnSession::get_queued_commands` (`src/txn/session.rs`): `None` unless
the session is still in MULTI with a nonempty queue. -/
def getQueuedCommands (s : TxnSession) : Option (List String) :=
  if ¬ s.in_multi ∨ s.queue.isEmpty then none
  else some (s.queue.map (String.intercalate " "))

end TxnSession

/-- The `tree.transaction` fold of `exec_all` (`src/txn/executor.rs`): run
each queued command against the transactional view; a reply starting with
`ERR` aborts, which rolls every write of the batch back to `store0`.  The
single abort reply is `format!("ERR {}", e)` where the
`TransactionError::Abort` display carries the aborting reply. -/
def execAllGo (now : Nat) (store0 : Store) :
    List (List String) → Store → List String → List String × Store
  | [], st, out => (out, st)
  | parts :: rest, st, out =>
      let r := execNonTxn false now (strUpper (parts.getD 0 "")) parts st
      if strStartsWith r.1 "ERR" then (["ERR " ++ r.1], store0)
      else execAllGo now store0 rest r.2 (out ++ [r.1])

/-- `exec_all`. -/
def execAll (now : Nat) (st : Store) (cmds : List (List String)) :
    List String × Store :=
  execAllGo now st cmds st []

/-- `engine::execute` (`src/engine/mod.rs`): lazy-expiry pre-pass, the
MULTI/EXEC/DISCARD state machine, queueing inside MULTI, direct dispatch
otherwise.  The direct view is modelled (`as_db()` present). -/
def execute (now : Nat) (parts : List String) (st : Store) (sess : TxnSession) :
    String × Store × TxnSession :=
  if parts.isEmpty then ("ERR empty command", st, sess)
  else
    let cmd := strUpper (parts.getD 0 "")
    let st1 :=
      if ¬ sess.in_multi ∧ 1 < parts.length ∧ cmd ≠ "PING" ∧ cmd ≠ "QUIT" then
        Exp.removeIfExpired now st (parts.getD 1 "")
      else st
    if cmd = "MULTI" then
      let r := TxnSession.beginS sess
      (r.1, st1, r.2)
    else if cmd = "EXEC" then
      match TxnSession.takeQueue sess with
      | Except.ok (queue, sess') =>
          let r := execAll now st1 queue
          (String.intercalate "\n" r.1, r.2, sess')
      | Except.error e => (e, st1, sess)
    else if cmd = "DISCARD" then
      let r := TxnSession.discardS sess
      (r.1, st1, r.2)
    else if sess.in_multi then
      match TxnSession.enqueueS sess parts with
      | some (r, sess') => (r, st1, sess')
      | none => ("ERR not in transaction", st1, sess)
    else (let r := execNonTxn true now cmd parts st1; (r.1, r.2, sess))

/-! ## Watch manager (`src/engine/watch.rs`) -/

def wkLookup : List (String × List Nat) → String → Option (List Nat)
  | [], _ => none
  | (k, v) :: rest, key => if k = key then some v else wkLookup rest key

def wkSetEntry : List (String × List Nat) → String → List Nat → List (String × List Nat)
  | [], key, v => [(key, v)]
  | (k, w) :: rest, key, v =>
      if k = key then (key, v) :: rest else (k, w) :: wkSetEntry rest key v

def swLookup : List (Nat × List String) → Nat → Option (List String)
  | [], _ => none
  | (k, v) :: rest, key => if k = key then some v else swLookup rest key

def swSetEntry : List (Nat × List String) → Nat → List String → List (Nat × List String)
  | [], key, v => [(key, v)]
  | (k, w) :: rest, key, v =>
      if k = key then (key, v) :: rest else (k, w) :: swSetEntry rest key v

def swDropEntry : List (Nat × List String) → Nat → List (Nat × List String)
  | [], _ => []
  | (k, w) :: rest, key => if k = key then rest else (k, w) :: swDropEntry rest key

structure WatchMgr where
  watchedKeys : List (String × List Nat)
  sessionWatches : List (Nat × List String)
deriving DecidableEq, Repr

namespace WatchMgr

def new : WatchMgr := { watchedKeys := [], sessionWatches := [] }

/-- `DashSet::insert`-style set insertion. -/
def addSid (l : List Nat) (x : Nat) : List Nat := if x ∈ l then l else l ++ [x]

def addKey (l : List String) (x : String) : List String :=
  if x ∈ l then l else l ++ [x]

/-- `WatchManager::watch`: register `(sid, key)` in both maps, for each key. -/
def watch (wm : WatchMgr) (sid : Nat) (keys : List String) : WatchMgr :=
  keys.foldl
    (fun acc key =>
      { watchedKeys :=
          wkSetEntry acc.watchedKeys key (addSid ((wkLookup acc.watchedKeys key).getD []) sid),
        sessionWatches :=
          swSetEntry acc.sessionWatches sid
            (addKey ((swLookup acc.sessionWatches sid).getD []) key) })
    wm

/-- `WatchManager::notify_key_change`: lowercases the key, returns the
watchers, and `entry.clear()`s the watcher set — the map entry itself stays
(with an empty set). -/
def notify (wm : WatchMgr) (key : String) : WatchMgr × List Nat :=
  let nk := strLower key
  match wkLookup wm.watchedKeys nk with
  | some sids => ({ wm with watchedKeys := wkSetEntry wm.watchedKeys nk [] }, sids)
  | none => (wm, [])

/-- `WatchManager::is_dirty`: true iff some watched key of the session has
no entry at all in `watched_keys` (`!contains_key`). -/
def isDirty (wm : WatchMgr) (sid : Nat) : Bool :=
  match swLookup wm.sessionWatches sid with
  | some keys => keys.any fun k => (wkLookup wm.watchedKeys (strLower k)).isNone
  | none => false

/-- `WatchManager::unwatch`. -/
def unwatch (wm : WatchMgr) (sid : Nat) : WatchMgr :=
  match swLookup wm.sessionWatches sid with
  | some keys =>
      { watchedKeys :=
          keys.foldl
            (fun acc k =>
              match wkLookup acc k with
              | some sids => wkSetEntry acc k (sids.filter fun x => x ≠ sid)
              | none => acc)
            wm.watchedKeys,
        sessionWatches := swDropEntry wm.sessionWatches sid }
  | none => { wm with sessionWatches := swDropEntry wm.sessionWatches sid }

end WatchMgr

/-! ## Connection loop persistence decisions (`src/server.rs`) -/

/-- The `is_write` match of `handle_connection` — its arm list is the whole
command surface, reads included. -/
def isWrite (cmdName : String) : Bool :=
  cmdName = "SET" ∨ cmdName = "DEL" ∨ cmdName = "GET" ∨ cmdName = "INCR" ∨
  cmdName = "DECR" ∨ cmdName = "HSET" ∨ cmdName = "HGET" ∨ cmdName = "HDEL" ∨
  cmdName = "HKEYS" ∨ cmdName = "HVALS" ∨ cmdName = "HGETALL" ∨
  cmdName = "LPUSH" ∨ cmdName = "RPUSH" ∨ cmdName = "LPOP" ∨ cmdName = "RPOP" ∨
  cmdName = "LRANGE" ∨ cmdName = "SADD" ∨ cmdName = "SREM" ∨
  cmdName = "SMEMBERS" ∨ cmdName = "SISMEMBER" ∨ cmdName = "EXPIRE" ∨
  cmdName = "TTL" ∨ cmdName = "PERSIST" ∨ cmdName = "MULTI" ∨ cmdName = "EXEC" ∨
  cmdName = "DISCARD" ∨ cmdName = "WATCH" ∨ cmdName = "UNWATCH" ∨
  cmdName = "PING" ∨ cmdName = "QUIT"

/-- The append-log lines a single request emits (`src/server.rs`,
step 4 after `engine::execute` returned): the session state is the one
*after* execution. -/
def aofLines (cmdName raw : String) (after : TxnSession) : List String :=
  if isWrite cmdName then
    if cmdName = "EXEC" then (TxnSession.getQueuedCommands after).getD []
    else if after.in_multi then [] else [raw]
  else []

/-! ## Append-log replay (`src/persistence.rs`, `load_aof`) -/

/-- Token accumulator for `splitWs`: `cur` is the current token, reversed. -/
def splitWsGo : List Char → List Char → List String
  | [], cur => if cur.isEmpty then [] else [String.mk cur.reverse]
  | c :: rest, cur =>
      if c.isWhitespace then
        (if cur.isEmpty then [] else [String.mk cur.reverse]) ++ splitWsGo rest []
      else splitWsGo rest (c :: cur)

/-- Model of Rust `split_whitespace`: maximal nonempty runs of
non-whitespace characters. -/
def splitWs (line : String) : List String := splitWsGo line.data []

/-- One line of `load_aof`: only `SET`/`DEL` are interpreted, and they write
the *raw* first argument as the key — no `string:` prefix, no dispatch
through the engine.  (The writes go through `sled::Db::insert` directly;
in the single-tree model this is the same store the engine reads.) -/
def loadAofLine (st : Store) (line : String) : Store :=
  let parts := splitWs line
  if parts.isEmpty then st
  else
    let cmd := strUpper (parts.getD 0 "")
    if cmd = "SET" ∧ parts.length = 3 then
      kvInsert st (parts.getD 1 "") (Val.vstr (parts.getD 2 ""))
    else if cmd = "DEL" ∧ parts.length = 2 then kvRemove st (parts.getD 1 "")
    else st

/-- `load_aof`: fold the log lines over the store. -/
def loadAof (st : Store) (lines : List String) : Store :=
  lines.foldl loadAofLine st

/-! ## Claims -/

/-- C1: the claim states that when `expire:K` holds a stale timestamp, the
lazy-expiry purge run before a keyed command deletes every physical key of
every family of K (`string:<K>`, all `hash:<K>:<field>`, list data/meta,
`set:<K>:<member>`) together with `expire:<K>`, leaving K absent from every
physical family.  The code violates this: `remove_key` removes only the raw
key `K` and `expire:K` from the engine tree and drops separately-named
trees that no type module writes to.  Concretely, with `string:k = "v"` and
`expire:k` stale (500 ≤ now = 1000), `GET k` runs the purge, the purge
removes `expire:k`, yet the reply is still `"v"` and `string:k` survives. -/
theorem C1_purge_misses_families :
    (execute 1000 ["GET", "k"]
        [(strKey "k", Val.vstr "v"), (expKey "k", Val.vbytes (u64ToBe8 500))]
        TxnSession.new).1 = "v"
    ∧ kvGet (execute 1000 ["GET", "k"]
        [(strKey "k", Val.vstr "v"), (expKey "k", Val.vbytes (u64ToBe8 500))]
        TxnSession.new).2.1 (strKey "k") = some (Val.vstr "v")
    ∧ kvGet (execute 1000 ["GET", "k"]
        [(strKey "k", Val.vstr "v"), (expKey "k", Val.vbytes (u64ToBe8 500))]
        TxnSession.new).2.1 (expKey "k") = none := by
  decide

/-- C2: the claim states that replaying the append log into an empty store
reproduces the client-visible state, the replay re-dispatching every line
as a non-transactional command and storing values under the same
physical-key schema as live execution.  The code violates this: `load_aof`
interprets only `SET` and `DEL`, ignores every other verb, and inserts the
*raw* key (no `string:` prefix).  Concretely, after live `SET foo bar`,
`GET foo` replies `"bar"`, but replaying the logged line `"SET foo bar"`
into an empty store leaves `string:foo` absent and `GET foo` replies
`"ERR key not found"`; an `HSET` line is dropped entirely. -/
theorem C2_replay_diverges :
    (execNonTxn true 0 "GET" ["GET", "foo"]
        (execNonTxn true 0 "SET" ["SET", "foo", "bar"] []).2).1 = "bar"
    ∧ loadAof [] ["SET foo bar"] = [("foo", Val.vstr "bar")]
    ∧ (execNonTxn true 0 "GET" ["GET", "foo"] (loadAof [] ["SET foo bar"])).1
        = "ERR key not found"
    ∧ kvGet (loadAof [] ["SET foo bar"]) (strKey "foo") = none
    ∧ loadAof [] ["HSET h f v"] = []
    ∧ loadAof [] ["LPUSH L a"] = [] := by
  decide

/-- C3: the claim states that a session whose WATCHed key was modified by
another session between WATCH and EXEC gets an abort reply from EXEC with
none of its queued writes applied.  The code violates this three ways:
`WATCH` is not a dispatchable command at all (`execute_non_txn_command`
answers `unknown command`); `notify_key_change` empties the watcher set
but leaves the `watched_keys` map entry, so `is_dirty` (which tests
`!contains_key`) stays `false` after the modification — contradicting the
`test_watch_and_notify` unit test of `src/engine/watch.rs` itself; and the
`EXEC` branch of `engine::execute` never consults the watch manager, so
the queued `SET k y` is applied and EXEC replies `"OK"`. -/
theorem C3_watch_never_aborts_exec :
    (WatchMgr.notify (WatchMgr.watch WatchMgr.new 16 ["k"]) "k").2 = [16]
    ∧ WatchMgr.isDirty (WatchMgr.notify (WatchMgr.watch WatchMgr.new 16 ["k"]) "k").1 16
        = false
    ∧ (execNonTxn true 0 "WATCH" ["WATCH", "k"] []).1
        = "ERR unknown command \x27WATCH\x27"
    ∧ (execute 0 ["EXEC"] [(strKey "k", Val.vstr "x")]
        { in_multi := true, queue := [["SET", "k", "y"]] }).1 = "OK"
    ∧ kvGet (execute 0 ["EXEC"] [(strKey "k", Val.vstr "x")]
        { in_multi := true, queue := [["SET", "k", "y"]] }).2.1 (strKey "k")
        = some (Val.vstr "y") := by
  decide

/-- C4: the claim states that exactly the mutating commands reach the
append log: reads are never appended, and a successful EXEC appends one
line per queued command.  The code violates both halves: the server's
`is_write` match lists the whole command surface, so the read `GET k` is
appended; and the EXEC append runs after `engine::execute` has already
drained the queue through `take_queue` (leaving `in_multi = false` and an
empty queue), so `get_queued_commands` returns `None` and a successful
EXEC appends nothing. -/
theorem C4_reads_logged_exec_appends_nothing :
    isWrite "GET" = true
    ∧ aofLines "GET" "GET k" TxnSession.new = ["GET k"]
    ∧ (execute 0 ["EXEC"] [] { in_multi := true, queue := [["SET", "k", "v"]] }).2.2
        = { in_multi := false, queue := [] }
    ∧ aofLines "EXEC" "EXEC"
        (execute 0 ["EXEC"] [] { in_multi := true, queue := [["SET", "k", "v"]] }).2.2
        = []
    ∧ (execute 0 ["EXEC"] [] { in_multi := true, queue := [["SET", "k", "v"]] }).1
        = "OK" := by
  decide

/-- Byte-lexicographic strict order on strings, the order in which sled
iterates keys. -/
def bytesLtB : List Nat → List Nat → Bool
  | [], [] => false
  | [], _ :: _ => true
  | _ :: _, [] => false
  | a :: as, b :: bs => if a < b then true else if b < a then false else bytesLtB as bs

def strBytesLt (s t : String) : Bool :=
  bytesLtB (s.data.map Char.toNat) (t.data.map Char.toNat)

/-- C6 counterexample: the claim states the data key writes the sign-flipped
`u64` as 8 big-endian bytes so that byte-lexicographic key order matches
numeric sequence order.  In the code the key embeds the `u64` as its
*decimal digits* (`format!` `Display`), and byte order over decimals breaks
at digit-length changes: the consecutive sequence numbers mapping to `u64`
9 and 10 give keys `...:9` and `...:10`, and the key of the *larger*
sequence number is byte-lexicographically *smaller*. -/
theorem C6_counterexample :
    ((-9223372036854775799 : Int) < -9223372036854775798)
    ∧ dataKey "L" (-9223372036854775799) = "list:data:L:9"
    ∧ dataKey "L" (-9223372036854775798) = "list:data:L:10"
    ∧ strBytesLt (dataKey "L" (-9223372036854775799))
        (dataKey "L" (-9223372036854775798)) = false
    ∧ strBytesLt (dataKey "L" (-9223372036854775798))
        (dataKey "L" (-9223372036854775799)) = true := by
  decide

/-- C6 (amended): the data key encodes the signed 64-bit sequence number by
flipping its sign bit to obtain a `u64` and embedding that `u64`'s decimal
digits in the key; the flipped `u64` values order like the sequence numbers
numerically (`a < b` gives `seqToU64 a < seqToU64 b`), but the byte order
of the encoded keys does not in general follow numeric order. -/
theorem C6_decimal_seq_encoding (k : String) (s a b : Int)
    (ha1 : minI64 ≤ a) (hb2 : b ≤ maxI64) (hab : a < b) :
    dataKey k s = "list:data:" ++ k ++ ":" ++ natDecStr (seqToU64 s)
    ∧ seqToU64 a < seqToU64 b := by
  refine ⟨rfl, ?_⟩
  rw [seqToU64_char a ha1 (by omega), seqToU64_char b (by omega) hb2]
  simp only [minI64, maxI64] at ha1 hb2
  omega

/-- C6 witness: the amended encoding equation and monotonicity at the
sign transition `-1 < 0`. -/
theorem C6_decimal_seq_encoding_witness :
    dataKey "L" (-1) = "list:data:L:" ++ natDecStr (seqToU64 (-1))
    ∧ seqToU64 (-1) < seqToU64 0 :=
  C6_decimal_seq_encoding "L" (-1) (-1) 0 (by decide) (by decide) (by decide)

/-- C5: for a key whose `string:<K>` value is the decimal encoding of an
`i64` value `v`, INCR replies `v+1` and stores `v+1`, DECR replies `v-1`
and stores `v-1`; at `i64::MAX` (resp. `i64::MIN`) the operation reports an
error and the store is unchanged; an absent key is treated as 0 (so INCR
yields 1, DECR yields -1).  Direct arm (`as_db()` present), whose
read-modify-write runs in a store transaction. -/
theorem C5_incr_decr_integer_semantics (st : Store) (K : String) (v : Int)
    (hv1 : minI64 ≤ v) (hv2 : v ≤ maxI64)
    (hstored : kvGet st (strKey K) = some (Val.vstr (intDecStr v))) :
    (v < maxI64 →
      Str.incr true st K =
        (Except.ok (intDecStr (v + 1)),
          kvInsert st (strKey K) (Val.vstr (intDecStr (v + 1)))))
    ∧ (v = maxI64 →
      Str.incr true st K = (Except.error "ERR increment would overflow", st))
    ∧ (minI64 < v →
      Str.decr true st K =
        (Except.ok (intDecStr (v - 1)),
          kvInsert st (strKey K) (Val.vstr (intDecStr (v - 1)))))
    ∧ (v = minI64 →
      Str.decr true st K = (Except.error "ERR decrement would underflow", st))
    ∧ (∀ st2 : Store, kvGet st2 (strKey K) = none →
        Str.incr true st2 K =
          (Except.ok (intDecStr 1), kvInsert st2 (strKey K) (Val.vstr (intDecStr 1)))
        ∧ Str.decr true st2 K =
          (Except.ok (intDecStr (-1)),
            kvInsert st2 (strKey K) (Val.vstr (intDecStr (-1))))) := by
  have hparse := parseI64_intDecStr v hv1 hv2
  refine ⟨?_, ?_, ?_, ?_, ?_⟩
  · intro h
    simp only [Str.incr, if_true, Str.incrDirect, hstored, asUtf8, hparse]
    rw [if_neg (by simp only [maxI64] at h ⊢; omega)]
  · intro h
    simp only [Str.incr, if_true, Str.incrDirect, hstored, asUtf8, hparse]
    rw [if_pos (by omega)]
  · intro h
    simp only [Str.decr, if_true, Str.decrDirect, hstored, asUtf8, hparse]
    rw [if_neg (by simp only [minI64] at h ⊢; omega)]
  · intro h
    simp only [Str.decr, if_true, Str.decrDirect, hstored, asUtf8, hparse]
    rw [if_pos (by omega)]
  · intro st2 hnone
    constructor
    · simp only [Str.incr, if_true, Str.incrDirect, hnone]
    · simp only [Str.decr, if_true, Str.decrDirect, hnone]

/-- C5 witness: at `v = 41` the increment stores and replies 42, at
`v = i64::MAX` it errors leaving the store unchanged, and the absent key
counts from zero. -/
theorem C5_incr_decr_witness :
    ((41 : Int) < maxI64 →
      Str.incr true [(strKey "c", Val.vstr (intDecStr 41))] "c" =
        (Except.ok (intDecStr 42),
          kvInsert [(strKey "c", Val.vstr (intDecStr 41))] (strKey "c")
            (Val.vstr (intDecStr 42)))) ∧
    (∀ st2 : Store, kvGet st2 (strKey "c") = none →
        Str.incr true st2 "c" =
          (Except.ok (intDecStr 1), kvInsert st2 (strKey "c") (Val.vstr (intDecStr 1)))
        ∧ Str.decr true st2 "c" =
          (Except.ok (intDecStr (-1)),
            kvInsert st2 (strKey "c") (Val.vstr (intDecStr (-1))))) := by
  have h := C5_incr_decr_integer_semantics [(strKey "c", Val.vstr (intDecStr 41))] "c" 41
    (by decide) (by decide) (by decide)
  exact ⟨fun hlt => (h.1 hlt), h.2.2.2.2⟩

/-- C8: TTL replies `"-1"` when no `expire:K` entry exists; with a stored
timestamp `t ≤ now` it runs the purge routine (`remove_key`: the raw key
and the `expire:K` entry leave the engine tree) and replies `"-2"`; with
`t > now` it replies the decimal of `(t - now + 999) / 1000`, which the
last two inequalities pin down as `⌈(t - now) / 1000⌉`. -/
theorem C8_ttl_replies (now : Nat) (st : Store) (K : String) (t : Nat) :
    (kvGet st (expKey K) = none → Exp.ttlCmd now st K = (Except.ok "-1", st))
    ∧ (kvGet st (expKey K) = some (Val.vbytes (u64ToBe8 t)) → t ≤ now →
        Exp.ttlCmd now st K = (Except.ok "-2", Exp.removeKey st K))
    ∧ (kvGet st (expKey K) = some (Val.vbytes (u64ToBe8 t)) → t < 2 ^ 64 → now < t →
        Exp.ttlCmd now st K = (Except.ok (natDecStr ((t - now + 999) / 1000)), st)
        ∧ t - now ≤ 1000 * ((t - now + 999) / 1000)
        ∧ 1000 * ((t - now + 999) / 1000) < (t - now) + 1000) := by
  refine ⟨?_, ?_, ?_⟩
  · intro hnone
    simp only [Exp.ttlCmd, hnone]
  · intro hsome hle
    have hlen : (u64ToBe8 t).length = 8 := by simp [u64ToBe8]
    have hdec : be8ToNat (u64ToBe8 t) ≤ now := by
      simp only [u64ToBe8, be8ToNat, List.foldl]
      omega
    simp only [Exp.ttlCmd, hsome, hlen, if_true, hdec, reduceIte]
  · intro hsome hlt64 hgt
    have hlen : (u64ToBe8 t).length = 8 := by simp [u64ToBe8]
    have hrt : be8ToNat (u64ToBe8 t) = t := be8_u64_roundtrip t hlt64
    refine ⟨?_, by omega, by omega⟩
    simp only [Exp.ttlCmd, hsome, hlen, if_true, hrt]
    rw [if_neg (by omega)]

/-- C8 witness: with `expire:k = 4500`, `now = 1000` the reply is the
ceiling `"4"`; `t = 900 ≤ now` purges and replies `"-2"`; a missing entry
replies `"-1"`. -/
theorem C8_ttl_witness :
    Exp.ttlCmd 1000 [(expKey "k", Val.vbytes (u64ToBe8 4500))] "k"
      = (Except.ok (natDecStr 4), [(expKey "k", Val.vbytes (u64ToBe8 4500))])
    ∧ Exp.ttlCmd 1000 [(expKey "k", Val.vbytes (u64ToBe8 900)), (strKey "k", Val.vstr "v")] "k"
      = (Except.ok "-2",
          Exp.removeKey [(expKey "k", Val.vbytes (u64ToBe8 900)), (strKey "k", Val.vstr "v")] "k")
    ∧ Exp.ttlCmd 1000 [] "k" = (Except.ok "-1", []) := by
  refine ⟨?_, ?_, ?_⟩
  · exact ((C8_ttl_replies 1000 [(expKey "k", Val.vbytes (u64ToBe8 4500))] "k" 4500).2.2
      (by decide) (by decide) (by decide)).1
  · exact (C8_ttl_replies 1000
      [(expKey "k", Val.vbytes (u64ToBe8 900)), (strKey "k", Val.vstr "v")] "k" 900).2.1
      (by decide) (by decide)
  · exact (C8_ttl_replies 1000 [] "k" 0).1 (by decide)

/-- C10: the DEL command branch removes exactly the scalar physical key
`string:<K>`: every other key of the store — hash fields, list data and
metadata, set members, and the `expire:<K>` entry — reads the same after
DEL, the reply is `"OK"` or `"ERR key not found"` exactly according to the
prior presence of `string:<K>`, and `string:<K>` itself is gone
afterwards. -/
theorem C10_del_touches_only_string_key (now : Nat) (st : Store) (K : String)
    (hnd : (storeKeys st).Nodup) :
    (kvGet st (strKey K) ≠ none →
        execNonTxn true now "DEL" ["DEL", K] st = ("OK", kvRemove st (strKey K)))
    ∧ (kvGet st (strKey K) = none →
        execNonTxn true now "DEL" ["DEL", K] st
          = ("ERR key not found", kvRemove st (strKey K)))
    ∧ (∀ k' : String, k' ≠ strKey K →
        kvGet (kvRemove st (strKey K)) k' = kvGet st k')
    ∧ kvGet (kvRemove st (strKey K)) (strKey K) = none := by
  have hdel : execNonTxn true now "DEL" ["DEL", K] st = Str.del st K := rfl
  refine ⟨?_, ?_, ?_, ?_⟩
  · intro hsome
    rw [hdel]
    simp only [Str.del, if_pos hsome]
  · intro hnone
    rw [hdel]
    simp only [Str.del, hnone]
    rfl
  · intro k' hk'
    exact kvGet_remove_ne st (strKey K) k' hk'
  · exact kvGet_remove_self_of_nodup st (strKey K) hnd

/-- C10 witness: deleting `k` from a store that also holds a hash field,
a set member and an expiry of `k` removes only `string:k` and replies
`"OK"`; on the store without `string:k` the reply is the not-found text. -/
theorem C10_del_witness :
    execNonTxn true 0 "DEL" ["DEL", "k"]
        [(strKey "k", Val.vstr "v"), (hashKey "k" "f", Val.vstr "w"),
         (setKey "k" "m", Val.vbytes []), (expKey "k", Val.vbytes (u64ToBe8 99))]
      = ("OK",
         [(hashKey "k" "f", Val.vstr "w"), (setKey "k" "m", Val.vbytes []),
          (expKey "k", Val.vbytes (u64ToBe8 99))])
    ∧ execNonTxn true 0 "DEL" ["DEL", "k"] [(hashKey "k" "f", Val.vstr "w")]
      = ("ERR key not found", [(hashKey "k" "f", Val.vstr "w")]) := by
  constructor
  · have h := (C10_del_touches_only_string_key 0
      [(strKey "k", Val.vstr "v"), (hashKey "k" "f", Val.vstr "w"),
       (setKey "k" "m", Val.vbytes []), (expKey "k", Val.vbytes (u64ToBe8 99))] "k"
      (by decide)).1 (by decide)
    rw [h]
    decide
  · have h := (C10_del_touches_only_string_key 0 [(hashKey "k" "f", Val.vstr "w")] "k"
      (by decide)).2.1 (by decide)
    rw [h]
    decide

/-- Spec-side LRANGE (written from the claim's words, for the refinement
comparison): normalize a negative index `i` to `len + i`, clamp both into
`[0, len-1]`, empty when the normalized start exceeds the stop, otherwise
the elements at positions start..stop in head-to-tail order, comma-joined. -/
def lrangeSpec (contents : List String) (start stop : Int) : String :=
  let len : Int := contents.length
  let s0 := if start < 0 then len + start else start
  let e0 := if stop < 0 then len + stop else stop
  let s1 := min (max s0 0) (len - 1)
  let e1 := min (max e0 0) (len - 1)
  if e1 < s1 then ""
  else String.intercalate "," ((contents.drop s1.toNat).take (e1 - s1 + 1).toNat)

theorem drop_take_cons (l : List String) (s c : Nat) (h : s < l.length) :
    (l.drop s).take (c + 1) = l.getD s "" :: (l.drop (s + 1)).take c := by
  rw [List.drop_eq_getElem_cons h, List.take_succ_cons]
  congr 1
  simp [List.getD_eq_getElem?_getD, List.getElem?_eq_getElem h]

/-- The `for idx in s..=e` loop of `lrange` produces exactly the
corresponding slice of the list contents. -/
theorem lrangeCollect_spec (st : Store) (K : String) (hd : Int) (contents : List String)
    (hdata : ∀ i : Nat, i < contents.length →
        kvGet st (dataKey K (hd + (i : Int))) = some (Val.vstr (contents.getD i ""))) :
    ∀ (cnt s : Nat), s + cnt ≤ contents.length →
      Lst.lrangeCollect st K (hd + (s : Int)) cnt
        = Except.ok ((contents.drop s).take cnt) := by
  intro cnt
  induction cnt with
  | zero => intro s _; simp [Lst.lrangeCollect]
  | succ c ih =>
    intro s hbound
    have hi : s < contents.length := by omega
    rw [Lst.lrangeCollect, hdata s hi]
    simp only [asUtf8]
    have hcast : hd + (s : Int) + 1 = hd + ((s + 1 : Nat) : Int) := by push_cast; ring
    rw [hcast, ih (s + 1) (by omega)]
    rw [drop_take_cons contents s c hi]
    rfl

/-- C7: for a list with bounds `hd ≤ tl` whose data keys hold `contents`
(one element per position, `len = tl - hd + 1`), LRANGE normalizes a
negative index `i` to `len + i`, clamps both normalized indices into
`[0, len-1]`, returns the empty result when the normalized start exceeds
the normalized stop, and otherwise the elements at positions start..stop
in head-to-tail order, comma-joined; on an absent list (no bounds) it
returns the empty result. -/
theorem C7_lrange_normalizes_and_slices (st : Store) (K : String) (hd tl : Int)
    (contents : List String) (start stop : Int)
    (hbounds : Lst.getBounds st K = Except.ok (some (hd, tl)))
    (hht : hd ≤ tl)
    (hlen : (contents.length : Int) = tl - hd + 1)
    (hdata : ∀ i : Nat, i < contents.length →
        kvGet st (dataKey K (hd + (i : Int))) = some (Val.vstr (contents.getD i ""))) :
    Lst.lrange st K start stop = Except.ok (lrangeSpec contents start stop)
    ∧ (∀ st2 : Store, Lst.getBounds st2 K = Except.ok none →
        Lst.lrange st2 K start stop = Except.ok "") := by
  constructor
  · simp only [Lst.lrange, hbounds]
    rw [if_neg (by omega)]
    simp only [lrangeSpec]
    rw [hlen]
    by_cases hse :
        min (max (if stop < 0 then tl - hd + 1 + stop else stop) 0) (tl - hd + 1 - 1)
          < min (max (if start < 0 then tl - hd + 1 + start else start) 0) (tl - hd + 1 - 1)
    · rw [if_pos hse, if_pos hse]
    · rw [if_neg hse, if_neg hse]
      have hS0 : 0 ≤ min (max (if start < 0 then tl - hd + 1 + start else start) 0)
          (tl - hd + 1 - 1) := by omega
      have hE : min (max (if stop < 0 then tl - hd + 1 + stop else stop) 0)
          (tl - hd + 1 - 1) ≤ tl - hd := by omega
      have hcast : hd + min (max (if start < 0 then tl - hd + 1 + start else start) 0)
            (tl - hd + 1 - 1)
          = hd + (((min (max (if start < 0 then tl - hd + 1 + start else start) 0)
            (tl - hd + 1 - 1)).toNat : Nat) : Int) := by omega
      rw [hcast, lrangeCollect_spec st K hd contents hdata _ _ (by omega)]
      rfl
  · intro st2 hb2
    simp [Lst.lrange, hb2]

set_option maxRecDepth 4000 in
/-- C7 witness: on the three-element list `b, a, c` (the spec's end-to-end
list scenario, head `-2`, tail `0`), `LRANGE 0 -1` agrees with the
spec-side slice `"b,a,c"`, and the absent list gives the empty result. -/
theorem C7_lrange_witness :
    Lst.lrange
        [(dataKey "L" (-2), Val.vstr "b"), (dataKey "L" (-1), Val.vstr "a"),
         (dataKey "L" 0, Val.vstr "c"),
         (headKey "L", Val.vbytes (i64ToBe8 (-2))), (tailKey "L", Val.vbytes (i64ToBe8 0))]
        "L" 0 (-1)
      = Except.ok (lrangeSpec ["b", "a", "c"] 0 (-1))
    ∧ Lst.lrange [] "L" 0 (-1) = Except.ok ""
    ∧ lrangeSpec ["b", "a", "c"] 0 (-1) = "b,a,c" := by
  have h := C7_lrange_normalizes_and_slices
    [(dataKey "L" (-2), Val.vstr "b"), (dataKey "L" (-1), Val.vstr "a"),
     (dataKey "L" 0, Val.vstr "c"),
     (headKey "L", Val.vbytes (i64ToBe8 (-2))), (tailKey "L", Val.vbytes (i64ToBe8 0))]
    "L" (-2) 0 ["b", "a", "c"] 0 (-1)
    (by decide) (by decide) (by decide)
    (by decide)
  exact ⟨h.1, h.2 [] (by decide), by decide⟩

/-- The plain sequential run of queued commands against the transactional
view, with no abort: used to state which reply each queued command would
produce.  (`execAllGo` is this fold plus the abort-and-rollback check.) -/
def runSeq (now : Nat) : List (List String) → Store → List String × Store
  | [], st => ([], st)
  | c :: rest, st =>
      let r := execNonTxn false now (strUpper (c.getD 0 "")) c st
      let rr := runSeq now rest r.2
      (r.1 :: rr.1, rr.2)

/-- If every command of `pre` replies without the `ERR` prefix and the next
command's reply carries it, `execAllGo` aborts: the batch result is the
single wrapped error and the rollback store `store0`, whatever follows. -/
theorem execAllGo_abort (now : Nat) (store0 : Store) (c : List String)
    (post : List (List String)) :
    ∀ (pre : List (List String)) (st : Store) (out : List String),
      (∀ r ∈ (runSeq now pre st).1, strStartsWith r "ERR" = false) →
      strStartsWith
        (execNonTxn false now (strUpper (c.getD 0 "")) c (runSeq now pre st).2).1
        "ERR" = true →
      execAllGo now store0 (pre ++ c :: post) st out =
        (["ERR " ++
            (execNonTxn false now (strUpper (c.getD 0 "")) c (runSeq now pre st).2).1],
          store0) := by
  intro pre
  induction pre with
  | nil =>
    intro st out hclean habort
    simp only [runSeq] at habort
    simp only [List.nil_append, execAllGo, habort, if_true]
    rfl
  | cons p rest ih =>
    intro st out hclean habort
    have hp : strStartsWith (execNonTxn false now (strUpper (p.getD 0 "")) p st).1
        "ERR" = false := by
      refine hclean _ ?_
      simp [runSeq]
    simp only [List.cons_append, execAllGo, hp]
    rw [if_neg (by simp [hp])]
    refine ih (execNonTxn false now (strUpper (p.getD 0 "")) p st).2 _ ?_ ?_
    · intro r hr
      refine hclean r ?_
      simp only [runSeq]
      exact List.mem_cons_of_mem _ hr
    · simpa only [runSeq] using habort

/-- C9: `exec_all` aborts the whole transaction — replies collapse to the
single wrapped error and every write of the batch is rolled back — as soon
as any queued command's reply starts with `ERR`; and since GET of an
absent key replies `ERR key not found`, a transaction queueing a GET of a
key whose `string:` entry is absent when the GET runs applies none of its
writes and replies with that error. -/
theorem C9_exec_aborts_on_err_reply (now : Nat) (st : Store) :
    (∀ (pre : List (List String)) (c : List String) (post : List (List String)),
      (∀ r ∈ (runSeq now pre st).1, strStartsWith r "ERR" = false) →
      strStartsWith
        (execNonTxn false now (strUpper (c.getD 0 "")) c (runSeq now pre st).2).1
        "ERR" = true →
      execAll now st (pre ++ c :: post) =
        (["ERR " ++
            (execNonTxn false now (strUpper (c.getD 0 "")) c (runSeq now pre st).2).1],
          st))
    ∧ (∀ (pre post : List (List String)) (K : String),
      (∀ r ∈ (runSeq now pre st).1, strStartsWith r "ERR" = false) →
      kvGet (runSeq now pre st).2 (strKey K) = none →
      execAll now st (pre ++ ["GET", K] :: post) = (["ERR ERR key not found"], st)) := by
  constructor
  · intro pre c post hclean habort
    exact execAllGo_abort now st c post pre st [] hclean habort
  · intro pre post K hclean hnone
    have hget : (execNonTxn false now (strUpper (["GET", K].getD 0 "")) ["GET", K]
        (runSeq now pre st).2).1 = "ERR key not found" := by
      have hcmd : strUpper (["GET", K].getD 0 "") = "GET" := by
        show strUpper "GET" = "GET"
        decide
      rw [hcmd]
      have : execNonTxn false now "GET" ["GET", K] (runSeq now pre st).2
          = match Str.get (runSeq now pre st).2 K with
            | Except.ok s => (s, (runSeq now pre st).2)
            | Except.error e => ("ERR " ++ e, (runSeq now pre st).2) := rfl
      rw [this]
      simp only [Str.get, hnone]
    have h := execAllGo_abort now st ["GET", K] post pre st [] hclean
      (by rw [hget]; decide)
    rw [hget] at h
    exact h

set_option maxRecDepth 4000 in
/-- C9 witness: the batch `SET a 1; GET zz; SET b 2` on the empty store
aborts at the GET of the absent key: the reply is the single wrapped
error and no write survives (the store rolls back to empty). -/
theorem C9_exec_aborts_witness :
    execAll 0 [] ([["SET", "a", "1"]] ++ ["GET", "zz"] :: [["SET", "b", "2"]])
      = (["ERR ERR key not found"], []) :=
  (C9_exec_aborts_on_err_reply 0 []).2 [["SET", "a", "1"]] [["SET", "b", "2"]] "zz"
    (by decide) (by decide)
